import Mathlib

/-!
Shallow embedding of the hand-evaluation and round-settlement state machine of
the "Las Vegas Live" card game (source: `src/src/pages/Home.tsx`, first
component variant).  Pure functions (`calculateHandScore`, `getFilteredHand`)
are translated directly; the Firebase-mediated stateful handlers
(`handleBet`, `revealNextCard`, `applySilentDiscard`, `submitFinal`,
`calculateWinners`, `handleNextHand`) are translated as explicit
state-passing functions over a `GameState` / `Player` model.  Currency
amounts are modelled as rationals with an explicit two-decimal rounding
function mirroring JavaScript `parseFloat(x.toFixed(2))`; presentation-only
data (the `lastAction` message strings, card colors, debug logging) is not
modelled.  Randomness (`Math.random`) is modelled by passing the drawn index
or card as an explicit argument.
-/

namespace LasVegas

/-- Card values, mirroring the `VALUES` array of the source. -/
inductive CVal where
  | ace | two | three | four | five | six | seven | eight | nine | ten
  | jack | queen | king
deriving DecidableEq, Repr

/-- Card suits, mirroring the `SUITS` array (the `color` field of a card is
derived from the suit and is presentation-only, so it is not carried). -/
inductive Suit where
  | hearts | diamonds | clubs | spades
deriving DecidableEq, Repr

/-- A card as stored in hands and in `revealedCards`. -/
structure CardObj where
  value : CVal
  suit : Suit
deriving DecidableEq, Repr

/-- The `VALUES` array, in source order. -/
def VALUES : List CVal :=
  [.ace, .two, .three, .four, .five, .six, .seven, .eight, .nine, .ten,
   .jack, .queen, .king]

/-- The `SUITS` array, in source order. -/
def SUITSL : List Suit := [.hearts, .diamonds, .clubs, .spades]

/-- A player's declared rule: `"min"` or `"max"`. -/
inductive Choice where
  | min | max
deriving DecidableEq, Repr

/-- Per-card contribution inside the `reduce` of `calculateHandScore`:
aces are 11 under `"max"` and 1 otherwise, `J`/`Q`/`K` are 10, and the
numeral cards contribute `parseInt` of their face text. -/
def cardValueScore (choice : Choice) (v : CVal) : ℤ :=
  match v with
  | .ace => if choice = .max then 11 else 1
  | .jack | .queen | .king => 10
  | .two => 2
  | .three => 3
  | .four => 4
  | .five => 5
  | .six => 6
  | .seven => 7
  | .eight => 8
  | .nine => 9
  | .ten => 10

/-- `calculateHandScore(hand, choice)` from the source: 0 for an empty hand,
otherwise a left fold accumulating each card's value under the rule. -/
def calculateHandScore (hand : List CardObj) (choice : Choice) : ℤ :=
  if hand.isEmpty then 0
  else hand.foldl (fun total card => total + cardValueScore choice card.value) 0

/-- `getFilteredHand(playerHand, revealedCards)` from the source: an empty
hand filters to empty, an empty reveal list returns the hand unchanged, and
otherwise every card whose value occurs among the revealed values is dropped. -/
def getFilteredHand (playerHand : List CardObj) (revealedCards : List CardObj) :
    List CardObj :=
  if playerHand.isEmpty then []
  else if revealedCards.isEmpty then playerHand
  else
    let revealedValues := revealedCards.map (·.value)
    playerHand.filter (fun card => decide (card.value ∉ revealedValues))

/-- Modelled from the spec: the per-card value exactly as §4.1 words it —
"numeral cards 2–10 contribute their face value; J, Q, K contribute 10; Ace
contributes 1 under rule=min and 11 under rule=max".  Used as the
specification side of the refinement in claim C6. -/
def specCardValue (choice : Choice) (v : CVal) : ℤ :=
  match v with
  | .two => 2
  | .three => 3
  | .four => 4
  | .five => 5
  | .six => 6
  | .seven => 7
  | .eight => 8
  | .nine => 9
  | .ten => 10
  | .jack => 10
  | .queen => 10
  | .king => 10
  | .ace => match choice with | .min => 1 | .max => 11

lemma score_foldl_eq_sum (f : CardObj → ℤ) (hand : List CardObj) (a : ℤ) :
    hand.foldl (fun total card => total + f card) a = a + (hand.map f).sum := by
  induction hand generalizing a with
  | nil => simp
  | cons c rest ih => simp [List.foldl_cons, ih, add_assoc]

lemma calculateHandScore_eq_sum (hand : List CardObj) (choice : Choice) :
    calculateHandScore hand choice
      = (hand.map (fun c => cardValueScore choice c.value)).sum := by
  unfold calculateHandScore
  rcases hand with _ | ⟨c, rest⟩
  · simp
  · rw [score_foldl_eq_sum]
    simp

/-- `parseFloat(x.toFixed(2))`: round a currency amount to two decimal
places, halves rounding up as in JavaScript `toFixed` on the non-negative
amounts the game handles. -/
def round2 (q : ℚ) : ℚ := ((round (q * 100) : ℤ) : ℚ) / 100

/-- An amount that is a whole number of cents — the shape of every monetary
value the source ever writes to the store, since each write goes through
`toFixed(2)`. -/
def isCents (q : ℚ) : Prop := ∃ n : ℤ, q = (n : ℚ) / 100

lemma isCents_round2 (q : ℚ) : isCents (round2 q) := ⟨round (q * 100), rfl⟩

lemma round2_of_isCents {q : ℚ} (h : isCents q) : round2 q = q := by
  obtain ⟨n, rfl⟩ := h
  unfold round2
  have h100 : ((n : ℚ) / 100) * 100 = (n : ℚ) := by
    field_simp
  rw [h100, round_intCast]

lemma isCents_add {a b : ℚ} (ha : isCents a) (hb : isCents b) : isCents (a + b) := by
  obtain ⟨n, rfl⟩ := ha
  obtain ⟨m, rfl⟩ := hb
  exact ⟨n + m, by push_cast; ring⟩

lemma isCents_sub {a b : ℚ} (ha : isCents a) (hb : isCents b) : isCents (a - b) := by
  obtain ⟨n, rfl⟩ := ha
  obtain ⟨m, rfl⟩ := hb
  exact ⟨n - m, by push_cast; ring⟩

/-- The game phases of `GameState.phase`. -/
inductive Phase where
  | lobby | betting | revealing | final | results
deriving DecidableEq, Repr

/-- The shared table state (`game/state`).  The presentation-only
`lastAction` message is not modelled. -/
structure GameState where
  phase : Phase
  pot : ℚ
  currentBet : ℚ
  revealedCards : List CardObj
  totalCards : ℕ
  handSize : ℕ
  adminId : String
  dealerIndex : ℤ
  currentPlayerTurn : String
  waitingForDealer : Bool
  isFirstHand : Bool
deriving DecidableEq, Repr

/-- A player record (`game/players/<id>`). -/
structure Player where
  id : String
  username : String
  balance : ℚ
  isAdmin : Bool
  isBot : Bool
  lastBet : ℚ
  finalScore : Option ℤ
  choice : Option Choice
  position : ℤ
  hasActed : Bool
  folded : Bool
  hand : List CardObj
  originalHand : List CardObj
  totalBetThisHand : ℚ
  discardedCards : List CardObj
deriving DecidableEq, Repr

/-- Keep the first occurrence of each `(value, suit)` pair, dropping later
duplicates — the semantics of the source's
`filter((card, index, self) => index === self.findIndex(...))`
de-duplication of `discardedCards`. -/
def dedupFirstAux (seen : List CardObj) : List CardObj → List CardObj
  | [] => []
  | c :: rest =>
      if c ∈ seen then dedupFirstAux seen rest
      else c :: dedupFirstAux (c :: seen) rest

/-- De-duplicate a card list, keeping first occurrences. -/
def dedupFirst (l : List CardObj) : List CardObj := dedupFirstAux [] l

/-- The per-player body of `applySilentDiscard`: for the most recently
revealed value, remove every matching card from the hand and append the
removed cards (de-duplicated) to `discardedCards`; players with an empty
hand or no matching card are untouched. -/
def discardOne (lastValue : CVal) (p : Player) : Player :=
  if p.hand.isEmpty then p
  else
    let cardsToDiscard := p.hand.filter (fun card => decide (card.value = lastValue))
    if cardsToDiscard.isEmpty then p
    else
      { p with
        hand := p.hand.filter (fun card => decide (card.value ≠ lastValue)),
        discardedCards := dedupFirst (p.discardedCards ++ cardsToDiscard) }

/-- `applySilentDiscard()`: reads the last revealed card and updates only
`game/players/<id>/hand` and `game/players/<id>/discardedCards` paths; the
table state (in particular `revealedCards`) is passed through untouched,
mirroring that the source's update object contains no `game/state` path. -/
def applySilentDiscard (st : GameState) (ps : List Player) :
    GameState × List Player :=
  match st.revealedCards.getLast? with
  | none => (st, ps)
  | some lastRevealedCard => (st, ps.map (discardOne lastRevealedCard.value))

/-- The per-player reset issued by `revealNextCard` (`lastBet = 0`,
`hasActed = false` for every player id). -/
def resetBetFlags (p : Player) : Player := { p with lastBet := 0, hasActed := false }

/-- The values not yet on the table, from which `revealNextCard` draws. -/
def availableValuesOf (st : GameState) : List CVal :=
  VALUES.filter (fun v => decide (v ∉ st.revealedCards.map (·.value)))

/-- The card drawn by `revealNextCard` for given random indices: a value at
a random index into the not-yet-revealed values, paired with a random suit. -/
def drawnCard (st : GameState) (vIdx sIdx : ℕ) : CardObj :=
  ⟨((availableValuesOf st).get? (vIdx % (availableValuesOf st).length)).getD .ace,
   (SUITSL.get? (sIdx % SUITSL.length)).getD .hearts⟩

/-- `revealNextCard()`.  The source draws a uniformly random index into the
list of values not yet on the table and a random suit index; here the two
random draws are passed in as `vIdx` and `sIdx` (reduced modulo the
respective list lengths, as `Math.floor(Math.random() * n)` produces an
index in `[0, n)`).  Returns `none` when no unique value is available (the
source shows an error toast and leaves all state unchanged).  When the
appended card completes `totalCards` the phase moves to `final` directly;
only the non-final branch runs `applySilentDiscard` (after the per-player
`lastBet`/`hasActed` reset, which runs in both branches). -/
def revealNextCard (st : GameState) (ps : List Player) (vIdx sIdx : ℕ) :
    Option (GameState × List Player) :=
  if (availableValuesOf st).isEmpty then none
  else
    let nextCard : CardObj := drawnCard st vIdx sIdx
    let nextRevealed := st.revealedCards ++ [nextCard]
    let psReset := ps.map resetBetFlags
    if nextRevealed.length ≥ st.totalCards then
      some ({ st with
                revealedCards := nextRevealed,
                phase := .final,
                currentBet := 0,
                currentPlayerTurn := "",
                waitingForDealer := false,
                isFirstHand := false }, psReset)
    else
      let stMid := { st with revealedCards := nextRevealed }
      let psDiscarded := (applySilentDiscard stMid psReset).2
      some ({ stMid with
                phase := .betting,
                currentBet := 0,
                currentPlayerTurn := "",
                waitingForDealer := true,
                isFirstHand := false }, psDiscarded)

/-- Stable ascending insertion used to model the source's
`sort((a, b) => a.position - b.position)`. -/
def insertByPos (p : Player) : List Player → List Player
  | [] => [p]
  | q :: rest =>
      if q.position < p.position then q :: insertByPos p rest
      else p :: q :: rest

/-- Sort players by ascending `position` (stable). -/
def sortByPosition : List Player → List Player
  | [] => []
  | p :: rest => insertByPos p (sortByPosition rest)

/-- `getNextActivePlayerId()`: order the non-folded players with positive
balance by position; with at most one such player there is no next player;
otherwise step one index past the current turn holder (wrapping), or give
the first player when the current holder is not in the list. -/
def getNextActivePlayerId (st : GameState) (ps : List Player) : Option String :=
  let playerList := sortByPosition
    (ps.filter (fun p => !p.folded && decide ((0:ℚ) < p.balance)))
  if playerList.length ≤ 1 then none
  else
    match playerList.findIdx? (fun p => p.id = st.currentPlayerTurn) with
    | none => playerList.head?.map (·.id)
    | some i => (playerList.get? ((i + 1) % playerList.length)).map (·.id)

/-- The rejection cases of `handleBet` (each is a toast in the source; no
store write happens on any of them). -/
inductive BetError where
  | dealerGate | notYourTurn | belowMinimum | insufficientBalance
deriving DecidableEq, Repr

/-- `handleBet()`: guards (dealer gate, turn ownership), the 2.00 € betting
cap, the dynamic minimum bet `currentBet || 0.1`, the balance check on
`diff = max(0, betVal − lastBet)`, and on success the balance / `lastBet` /
`hasActed` / `totalBetThisHand` / `pot` / `currentBet` updates, the
`hasActed` reset of every other player on a raise, and the turn advance. -/
def handleBet (st : GameState) (ps : List Player) (pid : String)
    (isAdminMode : Bool) (betAmount : ℚ) :
    Except BetError (GameState × List Player) :=
  match ps.find? (fun p => p.id = pid) with
  | none => .error .dealerGate
  | some currentUser =>
    if st.waitingForDealer then .error .dealerGate
    else if !isAdminMode && st.currentPlayerTurn ≠ pid then .error .notYourTurn
    else
      let betVal0 := round2 betAmount
      let betVal := if betVal0 > 2 then 2 else betVal0
      let minBet := if st.currentBet = 0 then 1/10 else st.currentBet
      if betVal < minBet then .error .belowMinimum
      else
        let diff := max 0 (round2 (betVal - currentUser.lastBet))
        if diff > currentUser.balance then .error .insufficientBalance
        else
          let raised := decide (st.currentBet < betVal)
          let ps' := ps.map (fun p =>
            if p.id = pid then
              { p with
                balance := round2 (currentUser.balance - diff),
                lastBet := betVal,
                hasActed := true,
                totalBetThisHand := currentUser.totalBetThisHand + diff }
            else if raised then { p with hasActed := false } else p)
          let nextPlayerId := getNextActivePlayerId st ps
          .ok ({ st with
                   pot := round2 (st.pot + diff),
                   currentBet := betVal,
                   currentPlayerTurn := nextPlayerId.getD "" }, ps')

/-- The rejection cases of `submitFinal`: an unparsable score input, or a
declared score differing from the recomputed one. -/
inductive SubmitError where
  | invalidInput | scoreMismatch
deriving DecidableEq, Repr

/-- `submitFinal(choice)`: `parseInt` of the score input is modelled as an
`Option ℤ` (`none` for `NaN`); the declared score is checked against
`calculateHandScore(getFilteredHand(hand, revealedCards), choice)` and the
player's `choice` / `finalScore` fields are written only on an exact match. -/
def submitFinal (st : GameState) (currentUser : Player)
    (finalScoreInput : Option ℤ) (choice : Choice) : Except SubmitError Player :=
  match finalScoreInput with
  | none => .error .invalidInput
  | some declaredScore =>
    let filteredHand := getFilteredHand currentUser.hand st.revealedCards
    let correctScore := calculateHandScore filteredHand choice
    if declaredScore ≠ correctScore then .error .scoreMismatch
    else .ok { currentUser with choice := some choice, finalScore := some declaredScore }

/-- The bot auto-declaration body of the admin effect: a random rule choice
(passed in), then `finalScore = calculateHandScore(getFilteredHand(hand,
revealedCards), choice)` written together with the choice. -/
def botAutoDeclare (st : GameState) (bot : Player) (choice : Choice) : Player :=
  let filteredHand := getFilteredHand bot.hand st.revealedCards
  let finalScore := calculateHandScore filteredHand choice
  { bot with choice := some choice, finalScore := some finalScore }

/-- The eligibility filter of `calculateWinners`: non-folded players whose
`choice` is set and whose `finalScore` is neither `undefined` nor `null`. -/
def eligibleForSettlement (ps : List Player) : List Player :=
  ps.filter (fun p => !p.folded && p.choice.isSome && p.finalScore.isSome)

/-- `Math.min(...scores)` over a group's declared scores (the group is
always non-empty where this is used). -/
def bestMinScore (group : List Player) : ℤ :=
  ((group.filterMap (·.finalScore)).min?).getD 0

/-- `Math.max(...scores)` over a group's declared scores. -/
def bestMaxScore (group : List Player) : ℤ :=
  ((group.filterMap (·.finalScore)).max?).getD 0

/-- One entry of the winners description.  The source formats each winner as
a text fragment `"<username>: +<amount>€ (...)"` and joins them; the model
keeps the data content of each fragment, its username and amount. -/
structure WinEntry where
  username : String
  amount : ℚ
deriving DecidableEq, Repr

/-- A `game/history` record: winners description, pot amount, timestamp. -/
structure HistoryRecord where
  winners : List WinEntry
  pot : ℚ
  timestamp : ℕ
deriving DecidableEq, Repr

/-- Apply the per-winner balance writes of `calculateWinners`: each winner
`w` gets `balance := round2(w.balance + split)`, where `w.balance` is read
from the pre-settlement winner record. -/
def applyWinnerUpdates (split : ℚ) (winners : List Player)
    (ps : List Player) : List Player :=
  ps.map (fun p =>
    match winners.find? (fun w => w.id = p.id) with
    | some w => { p with balance := round2 (w.balance + split) }
    | none => p)

/-- The `minPlayers` group of `calculateWinners`: eligible players who
declared `"min"`. -/
def minDeclarers (ps : List Player) : List Player :=
  (eligibleForSettlement ps).filter (fun p => decide (p.choice = some Choice.min))

/-- The `maxPlayers` group of `calculateWinners`: eligible players who
declared `"max"`. -/
def maxDeclarers (ps : List Player) : List Player :=
  (eligibleForSettlement ps).filter (fun p => decide (p.choice = some Choice.max))

/-- A group's pot share: half the pot when both groups are non-empty, the
whole pot otherwise (`minPlayers.length > 0 && maxPlayers.length > 0 ?
pot / 2 : pot`). -/
def settleShare (ps : List Player) (pot : ℚ) : ℚ :=
  if !(minDeclarers ps).isEmpty && !(maxDeclarers ps).isEmpty then pot / 2 else pot

/-- The min-group players tying the group's lowest declared score. -/
def minGroupWinners (ps : List Player) : List Player :=
  (minDeclarers ps).filter
    (fun p => decide (p.finalScore = some (bestMinScore (minDeclarers ps))))

/-- The max-group players tying the group's highest declared score. -/
def maxGroupWinners (ps : List Player) : List Player :=
  (maxDeclarers ps).filter
    (fun p => decide (p.finalScore = some (bestMaxScore (maxDeclarers ps))))

/-- Per-winner payout in the min group: the group share divided by the
number of tied winners, rounded to cents. -/
def splitMinAmount (ps : List Player) (pot : ℚ) : ℚ :=
  round2 (settleShare ps pot / (minGroupWinners ps).length)

/-- Per-winner payout in the max group. -/
def splitMaxAmount (ps : List Player) (pot : ℚ) : ℚ :=
  round2 (settleShare ps pot / (maxGroupWinners ps).length)

/-- `calculateWinners(specialWinnerId?)`: the jackpot override path awards
the whole pot to the named player; the normal path partitions declared
players by choice, gives each non-empty group half the pot (or the whole
pot when the other group is empty), splits a group's share equally among the
players matching the group's extreme score (rounded to cents), appends a
history record when there is at least one winner entry, and sets
`phase = results`.  With no eligible player the settlement aborts with no
state change (`none`).  The pot itself is not written by this function. -/
def calculateWinners (st : GameState) (ps : List Player)
    (history : List HistoryRecord) (timestamp : ℕ)
    (specialWinnerId : Option String) :
    Option (GameState × List Player × List HistoryRecord) :=
  let pot := st.pot
  let stResults := { st with phase := Phase.results, isFirstHand := false }
  match specialWinnerId with
  | some wid =>
    match ps.find? (fun p => p.id = wid) with
    | some winnerObj =>
      let ps' := ps.map (fun p =>
        if p.id = wid then { p with balance := round2 (p.balance + pot) } else p)
      some (stResults, ps', history ++ [⟨[⟨winnerObj.username, pot⟩], pot, timestamp⟩])
    | none => some (stResults, ps, history)
  | none =>
    let playerList := eligibleForSettlement ps
    if playerList.isEmpty then none
    else
      let minWinners := minGroupWinners ps
      let maxWinners := maxGroupWinners ps
      let splitMin := splitMinAmount ps pot
      let splitMax := splitMaxAmount ps pot
      let ps1 := applyWinnerUpdates splitMin minWinners ps
      let ps2 := applyWinnerUpdates splitMax maxWinners ps1
      let winnersInfo := minWinners.map (fun w => WinEntry.mk w.username splitMin)
        ++ maxWinners.map (fun w => WinEntry.mk w.username splitMax)
      let history' :=
        if winnersInfo.isEmpty then history
        else history ++ [⟨winnersInfo, pot, timestamp⟩]
      some (stResults, ps2, history')

/-- `handleNextHand()`: admin-only; returns the table to the lobby with
`pot = 0`, `currentBet = 0`, cleared `revealedCards` and the dealer gate
re-armed. -/
def handleNextHand (st : GameState) (isAdminMode : Bool) : GameState :=
  if !isAdminMode then st
  else { st with
           phase := Phase.lobby,
           pot := 0,
           currentBet := 0,
           revealedCards := [],
           waitingForDealer := true,
           isFirstHand := false }

lemma cardValueScore_eq_specCardValue (choice : Choice) (v : CVal) :
    cardValueScore choice v = specCardValue choice v := by
  cases v <;> cases choice <;> rfl

lemma cardValueScore_min_le_max (v : CVal) :
    cardValueScore .min v ≤ cardValueScore .max v := by
  cases v <;> decide

lemma cardValueScore_eq_of_ne_ace (v : CVal) (h : v ≠ CVal.ace) :
    cardValueScore .min v = cardValueScore .max v := by
  cases v <;> first | rfl | exact absurd rfl h

lemma getFilteredHand_eq_filter (h r : List CardObj) (hr : r ≠ []) :
    getFilteredHand h r
      = h.filter (fun card => decide (card.value ∉ r.map (·.value))) := by
  unfold getFilteredHand
  rcases h with _ | ⟨c, rest⟩
  · simp
  · simp [List.isEmpty_eq_true, hr]

/-- C6: for every hand and rule, `calculateHandScore` sums the per-card
values the spec describes (numerals at face value, `J`/`Q`/`K` at 10, Ace at
1 under min and 11 under max), an empty hand scores 0, and the hand
`[A, K, 7]` scores 18 under min and 28 under max. -/
theorem c6_hand_scoring :
    (∀ (hand : List CardObj) (choice : Choice),
        calculateHandScore hand choice
          = (hand.map (fun c => specCardValue choice c.value)).sum)
    ∧ (∀ choice : Choice, calculateHandScore [] choice = 0)
    ∧ calculateHandScore
        [⟨.ace, .hearts⟩, ⟨.king, .spades⟩, ⟨.seven, .clubs⟩] .min = 18
    ∧ calculateHandScore
        [⟨.ace, .hearts⟩, ⟨.king, .spades⟩, ⟨.seven, .clubs⟩] .max = 28 := by
  refine ⟨?_, fun choice => rfl, by decide, by decide⟩
  intro hand choice
  rw [calculateHandScore_eq_sum]
  congr 1
  exact List.map_congr_left fun c _ => cardValueScore_eq_specCardValue choice c.value

/-- C7: for every hand, the min-rule score is at most the max-rule score,
and the two agree whenever the hand contains no Ace. -/
theorem c7_min_le_max (hand : List CardObj) :
    calculateHandScore hand .min ≤ calculateHandScore hand .max
    ∧ ((∀ c ∈ hand, c.value ≠ CVal.ace) →
        calculateHandScore hand .min = calculateHandScore hand .max) := by
  constructor
  · rw [calculateHandScore_eq_sum, calculateHandScore_eq_sum]
    induction hand with
    | nil => simp
    | cons c rest ih =>
        simp only [List.map_cons, List.sum_cons]
        exact add_le_add (cardValueScore_min_le_max c.value) ih
  · intro hno
    rw [calculateHandScore_eq_sum, calculateHandScore_eq_sum]
    congr 1
    exact List.map_congr_left fun c hc =>
      cardValueScore_eq_of_ne_ace c.value (hno c hc)

/-- Witness for C7 at the ace-free hand `[K♥]`. -/
theorem c7_min_le_max_witness :
    calculateHandScore [⟨.king, .hearts⟩] .min
        ≤ calculateHandScore [⟨.king, .hearts⟩] .max
    ∧ calculateHandScore [⟨.king, .hearts⟩] .min
        = calculateHandScore [⟨.king, .hearts⟩] .max :=
  ⟨(c7_min_le_max [⟨.king, .hearts⟩]).1,
   (c7_min_le_max [⟨.king, .hearts⟩]).2 (by decide)⟩

/-- C9: a declaration `(choice, declaredScore)` is accepted — writing
exactly `choice` and `finalScore = declaredScore` to the player's record —
if and only if the declared score equals the recomputed score of the
player's own current surviving (filtered) hand under the chosen rule, and
any mismatch is rejected with an error and no state change. -/
theorem c9_declaration_validation (st : GameState) (user : Player) (d : ℤ)
    (choice : Choice) :
    (submitFinal st user (some d) choice
        = .ok { user with choice := some choice, finalScore := some d }
      ↔ d = calculateHandScore (getFilteredHand user.hand st.revealedCards) choice)
    ∧ (d ≠ calculateHandScore (getFilteredHand user.hand st.revealedCards) choice →
        submitFinal st user (some d) choice = .error .scoreMismatch) := by
  unfold submitFinal
  constructor
  · constructor
    · intro h
      by_contra hd
      simp [hd] at h
    · intro hd
      simp [hd]
  · intro hd
    simp [hd]

/-- Witness for C9: with no revealed cards and hand `[K♥]`, declaring 10
under min is accepted and declaring 11 is rejected. -/
theorem c9_declaration_validation_witness :
    submitFinal ⟨.final, 0, 0, [], 4, 5, "a", 0, "", false, false⟩
        ⟨"p1", "Ann", 0, false, false, 0, none, none, 0, false, false,
         [⟨.king, .hearts⟩], [⟨.king, .hearts⟩], 0, []⟩ (some 10) .min
      = .ok { (⟨"p1", "Ann", 0, false, false, 0, none, none, 0, false, false,
         [⟨.king, .hearts⟩], [⟨.king, .hearts⟩], 0, []⟩ : Player) with
              choice := some .min, finalScore := some (10 : ℤ) }
    ∧ submitFinal ⟨.final, 0, 0, [], 4, 5, "a", 0, "", false, false⟩
        ⟨"p1", "Ann", 0, false, false, 0, none, none, 0, false, false,
         [⟨.king, .hearts⟩], [⟨.king, .hearts⟩], 0, []⟩ (some 11) .min
      = .error .scoreMismatch :=
  ⟨((c9_declaration_validation _ _ 10 .min).1).mpr (by decide),
   (c9_declaration_validation _ _ 11 .min).2 (by decide)⟩

/-- C10: every public-interface score computation — the validation in
`submitFinal` and the bot auto-declaration — is performed on
`getFilteredHand(hand, revealedCards)` rather than the raw stored hand, so a
card whose value occurs anywhere in `revealedCards` contributes nothing to
the validated `finalScore` even when it is still physically present in the
stored hand. -/
theorem c10_filtered_hand_scoring :
    (∀ (st : GameState) (user : Player) (d : ℤ) (choice : Choice) (p' : Player),
        submitFinal st user (some d) choice = .ok p' →
          p'.finalScore = some (calculateHandScore
            (getFilteredHand user.hand st.revealedCards) choice))
    ∧ (∀ (st : GameState) (bot : Player) (choice : Choice),
        (botAutoDeclare st bot choice).finalScore
          = some (calculateHandScore
              (getFilteredHand bot.hand st.revealedCards) choice))
    ∧ (∀ (hand revealed : List CardObj) (choice : Choice) (c : CardObj),
        c.value ∈ revealed.map (·.value) →
          calculateHandScore (getFilteredHand (c :: hand) revealed) choice
            = calculateHandScore (getFilteredHand hand revealed) choice) := by
  refine ⟨?_, fun st bot choice => rfl, ?_⟩
  · intro st user d choice p' h
    unfold submitFinal at h
    by_cases hd : d = calculateHandScore
        (getFilteredHand user.hand st.revealedCards) choice
    · simp only [hd, ne_eq, not_true_eq_false, if_false] at h
      cases h
      simp [hd]
    · simp [hd] at h
  · intro hand revealed choice c hc
    have hr : revealed ≠ [] := by
      rintro rfl
      simp at hc
    rw [getFilteredHand_eq_filter _ _ hr, getFilteredHand_eq_filter _ _ hr]
    rw [List.filter_cons]
    simp [hc]

/-- Witness for C10: with `5♦` revealed, a stored (undiscarded) `5♥`
in the hand contributes nothing to the validated score. -/
theorem c10_filtered_hand_scoring_witness :
    calculateHandScore
        (getFilteredHand [⟨.five, .hearts⟩, ⟨.king, .spades⟩] [⟨.five, .diamonds⟩]) .min
      = calculateHandScore
          (getFilteredHand [⟨.king, .spades⟩] [⟨.five, .diamonds⟩]) .min :=
  c10_filtered_hand_scoring.2.2 [⟨.king, .spades⟩] [⟨.five, .diamonds⟩] .min
    ⟨.five, .hearts⟩ (by decide)

lemma dedupFirstAux_of_nodup :
    ∀ {l seen : List CardObj}, l.Nodup → (∀ c ∈ l, c ∉ seen) →
      dedupFirstAux seen l = l := by
  intro l
  induction l with
  | nil => intro seen _ _; rfl
  | cons c rest ih =>
      intro seen hl hs
      have hcs : c ∉ seen := hs c (List.mem_cons_self c rest)
      have hrest : rest.Nodup := (List.nodup_cons.mp hl).2
      have hcn : c ∉ rest := (List.nodup_cons.mp hl).1
      unfold dedupFirstAux
      rw [if_neg hcs]
      congr 1
      exact ih hrest (fun d hd => by
        intro hmem
        rcases List.mem_cons.mp hmem with h | h
        · exact hcn (h ▸ hd)
        · exact hs d (List.mem_cons_of_mem _ hd) h)

lemma dedupFirst_of_nodup {l : List CardObj} (h : l.Nodup) : dedupFirst l = l :=
  dedupFirstAux_of_nodup h (fun c _ => List.not_mem_nil c)

lemma discardOne_hand (v : CVal) (p : Player) :
    (discardOne v p).hand = p.hand.filter (fun c => decide (c.value ≠ v)) := by
  unfold discardOne
  by_cases h0 : p.hand.isEmpty
  · rw [if_pos h0]
    rw [List.isEmpty_iff.mp h0]
    rfl
  · rw [if_neg h0]
    by_cases h1 : (p.hand.filter (fun c => decide (c.value = v))).isEmpty
    · rw [if_pos h1]
      have hnone : ∀ c ∈ p.hand, c.value ≠ v := by
        intro c hc hv
        have := List.filter_eq_nil_iff.mp (List.isEmpty_iff.mp h1) c hc
        simp [hv] at this
      rw [List.filter_eq_self.mpr (fun c hc => by
        simpa using hnone c hc)]
    · rw [if_neg h1]

lemma discardOne_discarded (v : CVal) (p : Player)
    (h : (p.discardedCards ++ p.hand.filter (fun c => decide (c.value = v))).Nodup) :
    (discardOne v p).discardedCards
      = p.discardedCards ++ p.hand.filter (fun c => decide (c.value = v)) := by
  unfold discardOne
  by_cases h0 : p.hand.isEmpty
  · rw [if_pos h0]
    rw [List.isEmpty_iff.mp h0]
    simp
  · rw [if_neg h0]
    by_cases h1 : (p.hand.filter (fun c => decide (c.value = v))).isEmpty
    · rw [if_pos h1]
      rw [List.isEmpty_iff.mp h1]
      simp
    · rw [if_neg h1]
      exact dedupFirst_of_nodup h

/-- C8: when a shared card is revealed, the silent discard removes every
card of the revealed value (not just the first) from every player's hand,
appends the removed cards to that player's `discardedCards`, leaves the
table state — in particular `revealedCards` — untouched, and turns the hand
`[5, 5, 9]` into `[9]` when the revealed value is 5. -/
theorem c8_multi_discard :
    (∀ (st : GameState) (ps : List Player), (applySilentDiscard st ps).1 = st)
    ∧ (∀ (st : GameState) (ps : List Player) (last : CardObj),
        st.revealedCards.getLast? = some last →
          (applySilentDiscard st ps).2.map Player.hand
            = ps.map (fun p => p.hand.filter (fun c => decide (c.value ≠ last.value))))
    ∧ (∀ (v : CVal) (p : Player),
        (p.discardedCards ++ p.hand.filter (fun c => decide (c.value = v))).Nodup →
          (discardOne v p).discardedCards
            = p.discardedCards ++ p.hand.filter (fun c => decide (c.value = v)))
    ∧ (discardOne .five
          ⟨"p1", "Ann", 0, false, false, 0, none, none, 0, false, false,
           [⟨.five, .hearts⟩, ⟨.five, .spades⟩, ⟨.nine, .clubs⟩],
           [⟨.five, .hearts⟩, ⟨.five, .spades⟩, ⟨.nine, .clubs⟩], 0, []⟩).hand
        = [⟨.nine, .clubs⟩] := by
  refine ⟨?_, ?_, discardOne_discarded, by decide⟩
  · intro st ps
    unfold applySilentDiscard
    cases st.revealedCards.getLast? <;> rfl
  · intro st ps last hlast
    unfold applySilentDiscard
    rw [hlast]
    simp only [List.map_map]
    exact List.map_congr_left fun p _ => discardOne_hand last.value p

/-- Witness for C8 at a concrete table: revealed `[5♦]`, one player holding
`[5♥, 5♠, 9♣]` with an empty discard pile. -/
theorem c8_multi_discard_witness :
    (applySilentDiscard
        ⟨.betting, 0, 0, [⟨.five, .diamonds⟩], 4, 5, "a", 0, "", false, false⟩
        [⟨"p1", "Ann", 0, false, false, 0, none, none, 0, false, false,
          [⟨.five, .hearts⟩, ⟨.five, .spades⟩, ⟨.nine, .clubs⟩],
          [⟨.five, .hearts⟩, ⟨.five, .spades⟩, ⟨.nine, .clubs⟩], 0, []⟩]).2.map Player.hand
      = [[⟨.nine, .clubs⟩]]
    ∧ (discardOne .five
          ⟨"p1", "Ann", 0, false, false, 0, none, none, 0, false, false,
           [⟨.five, .hearts⟩, ⟨.five, .spades⟩, ⟨.nine, .clubs⟩],
           [⟨.five, .hearts⟩, ⟨.five, .spades⟩, ⟨.nine, .clubs⟩], 0, []⟩).discardedCards
        = [⟨.five, .hearts⟩, ⟨.five, .spades⟩] := by
  constructor
  · rw [c8_multi_discard.2.1 _ _ ⟨.five, .diamonds⟩ (by decide)]
    decide
  · rw [c8_multi_discard.2.2.1 .five _ (by decide)]
    decide

lemma discardOne_preserves (v : CVal) (p : Player) :
    (discardOne v p).lastBet = p.lastBet ∧ (discardOne v p).hasActed = p.hasActed := by
  unfold discardOne
  by_cases h0 : p.hand.isEmpty
  · rw [if_pos h0]
    exact ⟨rfl, rfl⟩
  · rw [if_neg h0]
    by_cases h1 : (p.hand.filter (fun c => decide (c.value = v))).isEmpty
    · rw [if_pos h1]
      exact ⟨rfl, rfl⟩
    · rw [if_neg h1]
      exact ⟨rfl, rfl⟩

/-- A one-card round about to reveal its only shared card. -/
def c3State : GameState :=
  ⟨.revealing, 0, 0, [], 1, 5, "a", 0, "", false, false⟩

/-- A single player holding `[5♥]` in the round of `c3State`. -/
def c3Players : List Player :=
  [⟨"p1", "Ann", 0, false, false, 0, none, none, 0, false, false,
    [⟨.five, .hearts⟩], [⟨.five, .hearts⟩], 0, []⟩]

/-- C3, counterexample: in a round with `totalCards = 1`, revealing the last
shared card (a 5, drawn at value index 4) moves the phase to `final` but
leaves the player's stored hand still containing the matching `5♥` — the
Discard Engine is not applied on the last reveal, although applying it at
that point would have emptied the hand (second conjunct). -/
theorem c3_reveal_counterexample :
    (revealNextCard c3State c3Players 4 0).map
        (fun r => (r.1.phase, r.2.map Player.hand))
      = some (Phase.final, [[⟨.five, .hearts⟩]])
    ∧ ((applySilentDiscard { c3State with revealedCards := [⟨.five, .hearts⟩] }
        c3Players).2.map Player.hand) = [[]] := by
  exact ⟨by decide, by decide⟩

/-- C3, amended: every reveal appends one drawn card, resets every player's
`lastBet`/`hasActed`, resets `currentBet` to 0 and clears the turn pointer;
when the appended card reaches `totalCards` the phase moves to `final` with
the Discard Engine NOT applied to the stored hands (scoring later uses the
filtered hand instead), and otherwise the Discard Engine is applied and the
phase returns to `betting`. -/
theorem c3_reveal_step (st : GameState) (ps : List Player) (vIdx sIdx : ℕ)
    (h : availableValuesOf st ≠ []) :
    ∃ st' ps', revealNextCard st ps vIdx sIdx = some (st', ps')
      ∧ st'.revealedCards = st.revealedCards ++ [drawnCard st vIdx sIdx]
      ∧ st'.currentBet = 0
      ∧ st'.currentPlayerTurn = ""
      ∧ (∀ p ∈ ps', p.lastBet = 0 ∧ p.hasActed = false)
      ∧ (st.revealedCards.length + 1 ≥ st.totalCards →
          st'.phase = .final ∧ ps' = ps.map resetBetFlags)
      ∧ (st.revealedCards.length + 1 < st.totalCards →
          st'.phase = .betting
          ∧ ps' = (applySilentDiscard
              { st with revealedCards := st.revealedCards ++ [drawnCard st vIdx sIdx] }
              (ps.map resetBetFlags)).2) := by
  have hne : (availableValuesOf st).isEmpty = false := by
    simpa [List.isEmpty_iff] using h
  have hflags : ∀ p ∈ ps.map resetBetFlags, p.lastBet = 0 ∧ p.hasActed = false := by
    intro p hp
    obtain ⟨q, _, rfl⟩ := List.mem_map.mp hp
    exact ⟨rfl, rfl⟩
  have hlen2 : (st.revealedCards ++ [drawnCard st vIdx sIdx]).length
      = st.revealedCards.length + 1 := by
    simp
  by_cases hlen : st.revealedCards.length + 1 ≥ st.totalCards
  · refine ⟨{ st with
                revealedCards := st.revealedCards ++ [drawnCard st vIdx sIdx],
                phase := .final, currentBet := 0, currentPlayerTurn := "",
                waitingForDealer := false, isFirstHand := false },
      ps.map resetBetFlags, ?_, rfl, rfl, rfl, hflags, fun _ => ⟨rfl, rfl⟩,
      fun hc => absurd hlen (by omega)⟩
    unfold revealNextCard
    rw [hne]
    simp only [Bool.false_eq_true, if_false]
    rw [if_pos (by omega : (st.revealedCards ++ [drawnCard st vIdx sIdx]).length
        ≥ st.totalCards)]
  · refine ⟨{ st with
                revealedCards := st.revealedCards ++ [drawnCard st vIdx sIdx],
                phase := .betting, currentBet := 0, currentPlayerTurn := "",
                waitingForDealer := true, isFirstHand := false },
      (applySilentDiscard
          { st with revealedCards := st.revealedCards ++ [drawnCard st vIdx sIdx] }
          (ps.map resetBetFlags)).2,
      ?_, rfl, rfl, rfl, ?_, fun hc => absurd hc (by omega), fun _ => ⟨rfl, rfl⟩⟩
    · unfold revealNextCard
      rw [hne]
      simp only [Bool.false_eq_true, if_false]
      rw [if_neg (by omega : ¬ (st.revealedCards ++ [drawnCard st vIdx sIdx]).length
          ≥ st.totalCards)]
    · intro p hp
      unfold applySilentDiscard at hp
      rcases hgl : ({ st with revealedCards :=
          st.revealedCards ++ [drawnCard st vIdx sIdx] } : GameState).revealedCards.getLast?
        with _ | last
      · rw [hgl] at hp
        exact hflags p hp
      · rw [hgl] at hp
        simp only [List.map_map] at hp
        obtain ⟨q, _, rfl⟩ := List.mem_map.mp hp
        have hpres := discardOne_preserves last.value (resetBetFlags q)
        simp only [Function.comp_apply]
        exact ⟨hpres.1, hpres.2⟩

/-- Witness for C3's amended theorem at the concrete one-card round. -/
theorem c3_reveal_step_witness :
    ∃ st' ps', revealNextCard c3State c3Players 4 0 = some (st', ps')
      ∧ st'.revealedCards = c3State.revealedCards ++ [drawnCard c3State 4 0]
      ∧ st'.currentBet = 0
      ∧ st'.currentPlayerTurn = ""
      ∧ (∀ p ∈ ps', p.lastBet = 0 ∧ p.hasActed = false)
      ∧ (c3State.revealedCards.length + 1 ≥ c3State.totalCards →
          st'.phase = .final ∧ ps' = c3Players.map resetBetFlags)
      ∧ (c3State.revealedCards.length + 1 < c3State.totalCards →
          st'.phase = .betting
          ∧ ps' = (applySilentDiscard
              { c3State with revealedCards :=
                  c3State.revealedCards ++ [drawnCard c3State 4 0] }
              (c3Players.map resetBetFlags)).2) :=
  c3_reveal_step c3State c3Players 4 0 (by decide)

lemma handleBet_ok (st : GameState) (ps : List Player) (pid : String)
    (m : Bool) (amount : ℚ) (user : Player)
    (hfind : ps.find? (fun p => p.id = pid) = some user)
    (hw : st.waitingForDealer = false)
    (hturn : m = true ∨ st.currentPlayerTurn = pid)
    (hAmt : isCents amount) (hAmt2 : amount ≤ 2)
    (hLB : isCents user.lastBet) (hBal : isCents user.balance)
    (hPot : isCents st.pot)
    (hmin : (if st.currentBet = 0 then (1/10 : ℚ) else st.currentBet) ≤ amount)
    (hraise0 : user.lastBet ≤ amount)
    (hfunds : amount - user.lastBet ≤ user.balance) :
    handleBet st ps pid m amount = .ok
      ({ st with
           pot := st.pot + (amount - user.lastBet),
           currentBet := amount,
           currentPlayerTurn := (getNextActivePlayerId st ps).getD "" },
       ps.map (fun p =>
         if p.id = pid then
           { p with balance := user.balance - (amount - user.lastBet),
                    lastBet := amount, hasActed := true,
                    totalBetThisHand := user.totalBetThisHand + (amount - user.lastBet) }
         else if decide (st.currentBet < amount) then { p with hasActed := false }
         else p)) := by
  have hbv : round2 amount = amount := round2_of_isCents hAmt
  have hdiff : round2 (amount - user.lastBet) = amount - user.lastBet :=
    round2_of_isCents (isCents_sub hAmt hLB)
  have hmax : max (0:ℚ) (amount - user.lastBet) = amount - user.lastBet :=
    max_eq_right (sub_nonneg.mpr hraise0)
  have hbal2 : round2 (user.balance - (amount - user.lastBet))
      = user.balance - (amount - user.lastBet) :=
    round2_of_isCents (isCents_sub hBal (isCents_sub hAmt hLB))
  have hpot2 : round2 (st.pot + (amount - user.lastBet))
      = st.pot + (amount - user.lastBet) :=
    round2_of_isCents (isCents_add hPot (isCents_sub hAmt hLB))
  have hguard : (!m && decide (st.currentPlayerTurn ≠ pid)) = false := by
    rcases hturn with hm | ht
    · subst hm
      simp
    · simp [ht]
  unfold handleBet
  rw [hfind]
  simp only [hw, Bool.false_eq_true, if_false, hbv, hguard]
  rw [if_neg (not_lt.mpr hAmt2)]
  rw [if_neg (not_lt.mpr hmin)]
  rw [hdiff, hmax]
  rw [if_neg (not_lt.mpr hfunds)]
  rw [hbal2, hpot2]

/-- C4: a successful `Bet(amount)` deducts `diff = amount − lastBet` from
the player's balance, sets `lastBet = amount` and `hasActed = true`, adds
`diff` to the player's `totalBetThisHand` and to the table pot, sets
`currentBet = amount` (so in particular on a raise `amount > currentBet`),
clears `hasActed` of every other player exactly when the bet is a raise,
and advances the turn pointer to the next active player.  The hypotheses
are the success conditions of the source (dealer gate clear, caller's turn
or admin, amount within the dynamic minimum and the 2.00 € cap, funded
`diff`) together with the invariant that all stored amounts are whole
cents. -/
theorem c4_bet_success (st : GameState) (ps : List Player) (pid : String)
    (m : Bool) (amount : ℚ) (user : Player)
    (hfind : ps.find? (fun p => p.id = pid) = some user)
    (hw : st.waitingForDealer = false)
    (hturn : m = true ∨ st.currentPlayerTurn = pid)
    (hAmt : isCents amount) (hAmt2 : amount ≤ 2)
    (hLB : isCents user.lastBet) (hBal : isCents user.balance)
    (hPot : isCents st.pot)
    (hmin : (if st.currentBet = 0 then (1/10 : ℚ) else st.currentBet) ≤ amount)
    (hraise0 : user.lastBet ≤ amount)
    (hfunds : amount - user.lastBet ≤ user.balance) :
    handleBet st ps pid m amount = .ok
      ({ st with
           pot := st.pot + (amount - user.lastBet),
           currentBet := amount,
           currentPlayerTurn := (getNextActivePlayerId st ps).getD "" },
       ps.map (fun p =>
         if p.id = pid then
           { p with balance := user.balance - (amount - user.lastBet),
                    lastBet := amount, hasActed := true,
                    totalBetThisHand := user.totalBetThisHand + (amount - user.lastBet) }
         else if decide (st.currentBet < amount) then { p with hasActed := false }
         else p)) :=
  handleBet_ok st ps pid m amount user hfind hw hturn hAmt hAmt2 hLB hBal hPot
    hmin hraise0 hfunds

/-- A betting table with no current bet, the turn on `p1` and the dealer
gate clear. -/
def betDemoState : GameState :=
  ⟨.betting, 0, 0, [], 4, 5, "a", 0, "p1", false, false⟩

/-- The acting player of the betting demo. -/
def betDemoUser : Player :=
  ⟨"p1", "Ann", 5, false, false, 0, none, none, 0, false, false, [], [], 0, []⟩

/-- Two funded players for the betting demo. -/
def betDemoPlayers : List Player :=
  [betDemoUser,
   ⟨"p2", "Bob", 5, false, false, 0, none, none, 1, false, false, [], [], 0, []⟩]

/-- Witness for C4: `p1` bets 1.00 € from a clean table. -/
theorem c4_bet_success_witness :
    handleBet betDemoState betDemoPlayers "p1" false 1 = .ok
      ({ betDemoState with
           pot := betDemoState.pot + (1 - betDemoUser.lastBet),
           currentBet := 1,
           currentPlayerTurn :=
             (getNextActivePlayerId betDemoState betDemoPlayers).getD "" },
       betDemoPlayers.map (fun p =>
         if p.id = "p1" then
           { p with balance := betDemoUser.balance - (1 - betDemoUser.lastBet),
                    lastBet := 1, hasActed := true,
                    totalBetThisHand :=
                      betDemoUser.totalBetThisHand + (1 - betDemoUser.lastBet) }
         else if decide (betDemoState.currentBet < 1) then { p with hasActed := false }
         else p)) :=
  c4_bet_success betDemoState betDemoPlayers "p1" false 1 betDemoUser
    (by decide) rfl (Or.inr rfl) ⟨100, by norm_num⟩ (by norm_num)
    ⟨0, by norm_num [betDemoUser]⟩ ⟨500, by norm_num [betDemoUser]⟩
    ⟨0, by norm_num [betDemoState]⟩ (by norm_num [betDemoState])
    (by norm_num [betDemoUser]) (by norm_num [betDemoUser])

/-- C5: betting monotonicity and rejection without mutation.  Once
`currentBet` is positive, any submitted cent amount below it is rejected;
a bet whose `diff = amount − lastBet` exceeds the player's balance is
rejected; and every accepted bet leaves `currentBet` no smaller than
before, so a raise to `X` keeps all later sub-`X` bets rejected for the
rest of the betting segment.  Rejections return only an error, never a new
state, mirroring that the source returns before any store write. -/
theorem c5_bet_rejection (st : GameState) (ps : List Player) (pid : String)
    (m : Bool) (amount : ℚ) :
    (0 < st.currentBet → isCents amount → amount < st.currentBet →
        ∃ e, handleBet st ps pid m amount = .error e)
    ∧ (∀ user, ps.find? (fun p => p.id = pid) = some user →
        isCents amount → amount ≤ 2 → isCents user.lastBet →
        user.lastBet ≤ amount → user.balance < amount - user.lastBet →
        ∃ e, handleBet st ps pid m amount = .error e)
    ∧ (∀ st' ps', handleBet st ps pid m amount = .ok (st', ps') →
        st.currentBet ≤ st'.currentBet) := by
  refine ⟨?_, ?_, ?_⟩
  · intro hcb hAmt hlt
    cases hfind : ps.find? (fun p => p.id = pid) with
    | none => exact ⟨.dealerGate, by unfold handleBet; simp only [hfind]⟩
    | some user =>
      by_cases hw : st.waitingForDealer = true
      · exact ⟨.dealerGate, by unfold handleBet; simp only [hfind]; rw [if_pos hw]⟩
      · by_cases hg : (!m && decide (st.currentPlayerTurn ≠ pid)) = true
        · exact ⟨.notYourTurn, by
            unfold handleBet
            simp only [hfind]
            rw [if_neg hw, if_pos hg]⟩
        · refine ⟨.belowMinimum, ?_⟩
          unfold handleBet
          simp only [hfind]
          rw [if_neg hw, if_neg hg]
          rw [round2_of_isCents hAmt]
          rw [if_neg (ne_of_gt hcb : ¬ st.currentBet = 0)]
          have hlt2 : (if amount > 2 then (2:ℚ) else amount) < st.currentBet := by
            by_cases h2 : amount > 2
            · rw [if_pos h2]
              linarith
            · rw [if_neg h2]
              exact hlt
          rw [if_pos hlt2]
  · intro user hfind hAmt hAmt2 hLB hle hpoor
    by_cases hw : st.waitingForDealer = true
    · exact ⟨.dealerGate, by unfold handleBet; simp only [hfind]; rw [if_pos hw]⟩
    · by_cases hg : (!m && decide (st.currentPlayerTurn ≠ pid)) = true
      · exact ⟨.notYourTurn, by
          unfold handleBet
          simp only [hfind]
          rw [if_neg hw, if_pos hg]⟩
      · by_cases hbm : amount < (if st.currentBet = 0 then (1/10:ℚ) else st.currentBet)
        · refine ⟨.belowMinimum, ?_⟩
          unfold handleBet
          simp only [hfind]
          rw [if_neg hw, if_neg hg, round2_of_isCents hAmt,
            if_neg (not_lt.mpr hAmt2), if_pos hbm]
        · refine ⟨.insufficientBalance, ?_⟩
          unfold handleBet
          simp only [hfind]
          rw [if_neg hw, if_neg hg, round2_of_isCents hAmt,
            if_neg (not_lt.mpr hAmt2), if_neg hbm]
          rw [round2_of_isCents (isCents_sub hAmt hLB),
            max_eq_right (sub_nonneg.mpr hle)]
          rw [if_pos hpoor]
  · intro st2 ps2 h
    cases hfind : ps.find? (fun p => p.id = pid) with
    | none =>
      unfold handleBet at h
      simp only [hfind] at h
      simp at h
    | some user =>
      unfold handleBet at h
      simp only [hfind] at h
      by_cases hw : st.waitingForDealer = true
      · rw [if_pos hw] at h
        simp at h
      · rw [if_neg hw] at h
        by_cases hg : (!m && decide (st.currentPlayerTurn ≠ pid)) = true
        · rw [if_pos hg] at h
          simp at h
        · rw [if_neg hg] at h
          by_cases hbm : (if round2 amount > 2 then (2:ℚ) else round2 amount)
              < (if st.currentBet = 0 then (1/10:ℚ) else st.currentBet)
          · rw [if_pos hbm] at h
            simp at h
          · rw [if_neg hbm] at h
            by_cases hins : max 0 (round2 ((if round2 amount > 2 then (2:ℚ)
                else round2 amount) - user.lastBet)) > user.balance
            · rw [if_pos hins] at h
              simp at h
            · rw [if_neg hins] at h
              cases h
              push_neg at hbm
              by_cases hcb0 : st.currentBet = 0
              · rw [if_pos hcb0] at hbm
                rw [hcb0]
                refine le_trans ?_ hbm
                norm_num
              · rw [if_neg hcb0] at hbm
                exact hbm

/-- A table whose current bet has been raised to 0.50 €. -/
def raisedState : GameState :=
  ⟨.betting, 1, 1/2, [], 4, 5, "a", 0, "p1", false, false⟩

/-- A player who cannot fund a 1.00 € bet. -/
def poorPlayers : List Player :=
  [⟨"p3", "Cay", 0, false, false, 0, none, none, 0, false, false, [], [], 0, []⟩]

/-- Witness for C5: a 0.30 € bet under a 0.50 € current bet is rejected; a
1.00 € bet against an empty balance is rejected; and the successful demo
bet does not lower `currentBet`. -/
theorem c5_bet_rejection_witness :
    (∃ e, handleBet raisedState [] "p" false (3/10) = .error e)
    ∧ (∃ e, handleBet betDemoState poorPlayers "p3" true 1 = .error e)
    ∧ betDemoState.currentBet ≤
        ({ betDemoState with
             pot := betDemoState.pot + (1 - betDemoUser.lastBet),
             currentBet := 1,
             currentPlayerTurn :=
               (getNextActivePlayerId betDemoState betDemoPlayers).getD "" }
          : GameState).currentBet := by
  refine ⟨?_, ?_, ?_⟩
  · exact (c5_bet_rejection raisedState [] "p" false (3/10)).1
      (by norm_num [raisedState]) ⟨30, by norm_num⟩ (by norm_num [raisedState])
  · exact (c5_bet_rejection betDemoState poorPlayers "p3" true 1).2.1
      ⟨"p3", "Cay", 0, false, false, 0, none, none, 0, false, false, [], [], 0, []⟩
      (by decide) ⟨100, by norm_num⟩ (by norm_num) ⟨0, by norm_num⟩
      (by norm_num) (by norm_num)
  · exact (c5_bet_rejection betDemoState betDemoPlayers "p1" false 1).2.2 _ _
      (handleBet_ok betDemoState betDemoPlayers "p1" false 1 betDemoUser
        (by decide) rfl (Or.inr rfl) ⟨100, by norm_num⟩ (by norm_num)
        ⟨0, by norm_num [betDemoUser]⟩ ⟨500, by norm_num [betDemoUser]⟩
        ⟨0, by norm_num [betDemoState]⟩ (by norm_num [betDemoState])
        (by norm_num [betDemoUser]) (by norm_num [betDemoUser]))

lemma intList_min_spec (l : List ℤ) (h : l ≠ []) :
    (l.min?.getD 0) ∈ l ∧ ∀ x ∈ l, (l.min?.getD 0) ≤ x := by
  cases hm : l.min? with
  | none => exact absurd (List.min?_eq_none_iff.mp hm) h
  | some a =>
    have hmem : a ∈ l := List.min?_mem (fun a b => min_choice a b) hm
    have hle : ∀ x ∈ l, a ≤ x := fun x hx =>
      (List.le_min?_iff (fun a b c => le_min_iff) hm).mp le_rfl x hx
    simpa using ⟨hmem, hle⟩

lemma intList_max_spec (l : List ℤ) (h : l ≠ []) :
    (l.max?.getD 0) ∈ l ∧ ∀ x ∈ l, x ≤ (l.max?.getD 0) := by
  cases hm : l.max? with
  | none => exact absurd (List.max?_eq_none_iff.mp hm) h
  | some a =>
    have hmem : a ∈ l := List.max?_mem (fun a b => max_choice a b) hm
    have hle : ∀ x ∈ l, x ≤ a := fun x hx =>
      (List.max?_le_iff (fun a b c => max_le_iff) hm).mp le_rfl x hx
    simpa using ⟨hmem, hle⟩

lemma eligible_sub {ps : List Player} {p : Player}
    (h : p ∈ eligibleForSettlement ps) : p ∈ ps :=
  (List.mem_filter.mp h).1

lemma eligible_finalScore_isSome {ps : List Player} {p : Player}
    (h : p ∈ eligibleForSettlement ps) : p.finalScore.isSome := by
  have := (List.mem_filter.mp h).2
  simp only [Bool.and_eq_true] at this
  exact this.2

lemma mem_minDeclarers_choice {ps : List Player} {p : Player}
    (h : p ∈ minDeclarers ps) : p.choice = some Choice.min := by
  have := (List.mem_filter.mp h).2
  simpa using this

lemma mem_maxDeclarers_choice {ps : List Player} {p : Player}
    (h : p ∈ maxDeclarers ps) : p.choice = some Choice.max := by
  have := (List.mem_filter.mp h).2
  simpa using this

lemma minDeclarers_sub {ps : List Player} {p : Player}
    (h : p ∈ minDeclarers ps) : p ∈ ps :=
  eligible_sub (List.mem_filter.mp h).1

lemma maxDeclarers_sub {ps : List Player} {p : Player}
    (h : p ∈ maxDeclarers ps) : p ∈ ps :=
  eligible_sub (List.mem_filter.mp h).1

lemma minGroupWinners_sub {ps : List Player} {p : Player}
    (h : p ∈ minGroupWinners ps) : p ∈ minDeclarers ps :=
  (List.mem_filter.mp h).1

lemma maxGroupWinners_sub {ps : List Player} {p : Player}
    (h : p ∈ maxGroupWinners ps) : p ∈ maxDeclarers ps :=
  (List.mem_filter.mp h).1

lemma winner_groups_disjoint {ps : List Player} {p : Player}
    (hmin : p ∈ minGroupWinners ps) : p ∉ maxGroupWinners ps := by
  intro hmax
  have h1 := mem_minDeclarers_choice (minGroupWinners_sub hmin)
  have h2 := mem_maxDeclarers_choice (maxGroupWinners_sub hmax)
  rw [h1] at h2
  cases h2

lemma minScores_ne_nil {ps : List Player} (h : minDeclarers ps ≠ []) :
    (minDeclarers ps).filterMap (·.finalScore) ≠ [] := by
  obtain ⟨p, hp⟩ := List.exists_mem_of_ne_nil _ h
  have hs := eligible_finalScore_isSome (List.mem_filter.mp hp).1
  obtain ⟨s, hs⟩ := Option.isSome_iff_exists.mp hs
  intro hnil
  have : s ∈ (minDeclarers ps).filterMap (·.finalScore) :=
    List.mem_filterMap.mpr ⟨p, hp, hs⟩
  rw [hnil] at this
  exact List.not_mem_nil s this

lemma maxScores_ne_nil {ps : List Player} (h : maxDeclarers ps ≠ []) :
    (maxDeclarers ps).filterMap (·.finalScore) ≠ [] := by
  obtain ⟨p, hp⟩ := List.exists_mem_of_ne_nil _ h
  have hs := eligible_finalScore_isSome (List.mem_filter.mp hp).1
  obtain ⟨s, hs⟩ := Option.isSome_iff_exists.mp hs
  intro hnil
  have : s ∈ (maxDeclarers ps).filterMap (·.finalScore) :=
    List.mem_filterMap.mpr ⟨p, hp, hs⟩
  rw [hnil] at this
  exact List.not_mem_nil s this

lemma minGroupWinners_ne_nil {ps : List Player} (h : minDeclarers ps ≠ []) :
    minGroupWinners ps ≠ [] := by
  have hspec := intList_min_spec _ (minScores_ne_nil h)
  obtain ⟨p, hp, hps⟩ := List.mem_filterMap.mp hspec.1
  have : p ∈ minGroupWinners ps := by
    unfold minGroupWinners bestMinScore
    exact List.mem_filter.mpr ⟨hp, by simp [hps]⟩
  intro hnil
  rw [hnil] at this
  exact List.not_mem_nil p this

lemma maxGroupWinners_ne_nil {ps : List Player} (h : maxDeclarers ps ≠ []) :
    maxGroupWinners ps ≠ [] := by
  have hspec := intList_max_spec _ (maxScores_ne_nil h)
  obtain ⟨p, hp, hps⟩ := List.mem_filterMap.mp hspec.1
  have : p ∈ maxGroupWinners ps := by
    unfold maxGroupWinners bestMaxScore
    exact List.mem_filter.mpr ⟨hp, by simp [hps]⟩
  intro hnil
  rw [hnil] at this
  exact List.not_mem_nil p this

lemma find?_id_eq_some {winners ps : List Player} {pid : String} {p : Player}
    (hsub : ∀ w ∈ winners, w ∈ ps) (hnodup : (ps.map (·.id)).Nodup)
    (hp : p ∈ ps) (hmem : p ∈ winners) (hpid : p.id = pid) :
    winners.find? (fun w => w.id = pid) = some p := by
  have hinj := List.inj_on_of_nodup_map hnodup
  cases hfind : winners.find? (fun w => w.id = pid) with
  | none =>
    have := List.find?_eq_none.mp hfind p hmem
    simp [hpid] at this
  | some w =>
    have hw1 : w ∈ winners := List.mem_of_find?_eq_some hfind
    have hw2 : w.id = pid := by
      have := List.find?_some hfind
      simpa using this
    have : w = p := hinj (hsub w hw1) hp (by rw [hw2, hpid])
    rw [this]

lemma find?_id_eq_none {winners ps : List Player} {p : Player}
    (hsub : ∀ w ∈ winners, w ∈ ps) (hnodup : (ps.map (·.id)).Nodup)
    (hp : p ∈ ps) (hmem : p ∉ winners) :
    winners.find? (fun w => w.id = p.id) = none := by
  have hinj := List.inj_on_of_nodup_map hnodup
  apply List.find?_eq_none.mpr
  intro w hw
  simp only [decide_eq_true_eq]
  intro hid
  exact hmem ((hinj (hsub w hw) hp hid) ▸ hw)

lemma settlement_balances (ps : List Player) (pot : ℚ)
    (hnodup : (ps.map (·.id)).Nodup) :
    applyWinnerUpdates (splitMaxAmount ps pot) (maxGroupWinners ps)
        (applyWinnerUpdates (splitMinAmount ps pot) (minGroupWinners ps) ps)
      = ps.map (fun p =>
          if p ∈ minGroupWinners ps then
            { p with balance := round2 (p.balance + splitMinAmount ps pot) }
          else if p ∈ maxGroupWinners ps then
            { p with balance := round2 (p.balance + splitMaxAmount ps pot) }
          else p) := by
  have hminsub : ∀ w ∈ minGroupWinners ps, w ∈ ps :=
    fun w hw => minDeclarers_sub (minGroupWinners_sub hw)
  have hmaxsub : ∀ w ∈ maxGroupWinners ps, w ∈ ps :=
    fun w hw => maxDeclarers_sub (maxGroupWinners_sub hw)
  unfold applyWinnerUpdates
  rw [List.map_map]
  apply List.map_congr_left
  intro p hp
  simp only [Function.comp_apply]
  by_cases hmin : p ∈ minGroupWinners ps
  · rw [find?_id_eq_some hminsub hnodup hp hmin rfl]
    have hnotmax : p ∉ maxGroupWinners ps := winner_groups_disjoint hmin
    rw [show ({ p with balance := round2 (p.balance + splitMinAmount ps pot) }
        : Player).id = p.id from rfl]
    rw [find?_id_eq_none hmaxsub hnodup hp hnotmax]
    rw [if_pos hmin]
  · rw [find?_id_eq_none hminsub hnodup hp hmin]
    by_cases hmax : p ∈ maxGroupWinners ps
    · rw [find?_id_eq_some hmaxsub hnodup hp hmax rfl, if_neg hmin, if_pos hmax]
    · rw [find?_id_eq_none hmaxsub hnodup hp hmax, if_neg hmin, if_neg hmax]

/-- The settlement demo table: pot 10.00 €, phase `final`. -/
def c1State : GameState := ⟨.final, 10, 0, [], 4, 5, "a", 0, "", false, false⟩

/-- The settlement demo players: A and B declared min with score 5, C
declared max with score 20; all balances 0 so payouts are visible
directly. -/
def c1Players : List Player :=
  [⟨"A", "Ann", 0, false, false, 0, some 5, some .min, 0, true, false, [], [], 0, []⟩,
   ⟨"B", "Bob", 0, false, false, 0, some 5, some .min, 1, true, false, [], [], 0, []⟩,
   ⟨"C", "Cay", 0, false, false, 0, some 20, some .max, 2, true, false, [], [], 0, []⟩]

/-- C1: settlement pot split.  With at least one declared player, settlement
succeeds and pays each min-group winner `round2(balance + splitMin)` and
each max-group winner `round2(balance + splitMax)`, leaving everyone else
untouched, where each group's share is half the pot when both groups are
non-empty and the whole pot otherwise, split equally (rounded to cents)
among the players tying the group's extreme score — the numeric minimum of
the min group and maximum of the max group, as characterised by the
winner-membership and bound conjuncts.  At the concrete instance pot =
10.00, minGroup = {A:5, B:5}, maxGroup = {C:20}, the payouts are A +2.50,
B +2.50, C +5.00 and their sum 2.50+2.50+5.00 equals the pot. -/
theorem c1_settlement_split :
    (∀ (st : GameState) (ps : List Player) (hist : List HistoryRecord) (ts : ℕ),
        (ps.map (·.id)).Nodup → eligibleForSettlement ps ≠ [] →
        ∃ stR ps2 hist2,
          calculateWinners st ps hist ts none = some (stR, ps2, hist2)
          ∧ ps2 = ps.map (fun p =>
              if p ∈ minGroupWinners ps then
                { p with balance := round2 (p.balance + splitMinAmount ps st.pot) }
              else if p ∈ maxGroupWinners ps then
                { p with balance := round2 (p.balance + splitMaxAmount ps st.pot) }
              else p)
          ∧ (minDeclarers ps ≠ [] ∧ maxDeclarers ps ≠ [] →
              settleShare ps st.pot = st.pot / 2)
          ∧ (minDeclarers ps = [] ∨ maxDeclarers ps = [] →
              settleShare ps st.pot = st.pot)
          ∧ (∀ p ∈ minDeclarers ps,
              (p ∈ minGroupWinners ps ↔
                p.finalScore = some (bestMinScore (minDeclarers ps))))
          ∧ (∀ p ∈ minDeclarers ps, ∀ s, p.finalScore = some s →
              bestMinScore (minDeclarers ps) ≤ s)
          ∧ (∀ p ∈ maxDeclarers ps,
              (p ∈ maxGroupWinners ps ↔
                p.finalScore = some (bestMaxScore (maxDeclarers ps))))
          ∧ (∀ p ∈ maxDeclarers ps, ∀ s, p.finalScore = some s →
              s ≤ bestMaxScore (maxDeclarers ps)))
    ∧ (calculateWinners c1State c1Players [] 0 none).map
        (fun r => r.2.1.map Player.balance) = some [5/2, 5/2, 5]
    ∧ ((5:ℚ)/2) + 5/2 + 5 = c1State.pot := by
  have hgen : (∀ (st : GameState) (ps : List Player) (hist : List HistoryRecord) (ts : ℕ),
      (ps.map (·.id)).Nodup → eligibleForSettlement ps ≠ [] →
      ∃ stR ps2 hist2,
        calculateWinners st ps hist ts none = some (stR, ps2, hist2)
        ∧ ps2 = ps.map (fun p =>
            if p ∈ minGroupWinners ps then
              { p with balance := round2 (p.balance + splitMinAmount ps st.pot) }
            else if p ∈ maxGroupWinners ps then
              { p with balance := round2 (p.balance + splitMaxAmount ps st.pot) }
            else p)
        ∧ (minDeclarers ps ≠ [] ∧ maxDeclarers ps ≠ [] →
            settleShare ps st.pot = st.pot / 2)
        ∧ (minDeclarers ps = [] ∨ maxDeclarers ps = [] →
            settleShare ps st.pot = st.pot)
        ∧ (∀ p ∈ minDeclarers ps,
            (p ∈ minGroupWinners ps ↔
              p.finalScore = some (bestMinScore (minDeclarers ps))))
        ∧ (∀ p ∈ minDeclarers ps, ∀ s, p.finalScore = some s →
            bestMinScore (minDeclarers ps) ≤ s)
        ∧ (∀ p ∈ maxDeclarers ps,
            (p ∈ maxGroupWinners ps ↔
              p.finalScore = some (bestMaxScore (maxDeclarers ps))))
        ∧ (∀ p ∈ maxDeclarers ps, ∀ s, p.finalScore = some s →
            s ≤ bestMaxScore (maxDeclarers ps))) := by
    intro st ps hist ts hnodup hne
    have he : (eligibleForSettlement ps).isEmpty = false := by
      simpa [List.isEmpty_iff] using hne
    refine ⟨{ st with phase := Phase.results, isFirstHand := false },
      applyWinnerUpdates (splitMaxAmount ps st.pot) (maxGroupWinners ps)
        (applyWinnerUpdates (splitMinAmount ps st.pot) (minGroupWinners ps) ps),
      (if ((minGroupWinners ps).map
            (fun w => WinEntry.mk w.username (splitMinAmount ps st.pot))
          ++ (maxGroupWinners ps).map
            (fun w => WinEntry.mk w.username (splitMaxAmount ps st.pot))).isEmpty
       then hist
       else hist ++ [⟨(minGroupWinners ps).map
            (fun w => WinEntry.mk w.username (splitMinAmount ps st.pot))
          ++ (maxGroupWinners ps).map
            (fun w => WinEntry.mk w.username (splitMaxAmount ps st.pot)),
          st.pot, ts⟩]),
      ?_, settlement_balances ps st.pot hnodup, ?_, ?_, ?_, ?_, ?_, ?_⟩
    · unfold calculateWinners
      simp [he]
    · intro ⟨h1, h2⟩
      unfold settleShare
      rw [if_pos]
      simp [List.isEmpty_iff, h1, h2]
    · intro h
      unfold settleShare
      rw [if_neg]
      rcases h with h | h <;> simp [List.isEmpty_iff, h]
    · intro p hp
      unfold minGroupWinners
      rw [List.mem_filter]
      simp [hp]
    · intro p hp s hs
      unfold bestMinScore
      have hnn : minDeclarers ps ≠ [] := List.ne_nil_of_mem hp
      exact (intList_min_spec _ (minScores_ne_nil hnn)).2 s
        (List.mem_filterMap.mpr ⟨p, hp, hs⟩)
    · intro p hp
      unfold maxGroupWinners
      rw [List.mem_filter]
      simp [hp]
    · intro p hp s hs
      unfold bestMaxScore
      have hnn : maxDeclarers ps ≠ [] := List.ne_nil_of_mem hp
      exact (intList_max_spec _ (maxScores_ne_nil hnn)).2 s
        (List.mem_filterMap.mpr ⟨p, hp, hs⟩)
  refine ⟨hgen, ?_, by norm_num [c1State]⟩
  obtain ⟨stR, ps2, hist2, hval, hps2, _⟩ :=
    hgen c1State c1Players [] 0 (by decide) (by decide)
  rw [hval]
  simp only [Option.map_some']
  congr 1
  rw [hps2]
  have hsplitmin : splitMinAmount c1Players c1State.pot = 5/2 := by
    unfold splitMinAmount
    have hshare : settleShare c1Players c1State.pot = 5 := by
      unfold settleShare
      rw [if_pos (by decide)]
      norm_num [c1State]
    rw [hshare, (by decide : (minGroupWinners c1Players).length = 2)]
    rw [show ((5:ℚ) / ((2:ℕ):ℚ)) = 5/2 by norm_num]
    exact round2_of_isCents ⟨250, by norm_num⟩
  have hsplitmax : splitMaxAmount c1Players c1State.pot = 5 := by
    unfold splitMaxAmount
    have hshare : settleShare c1Players c1State.pot = 5 := by
      unfold settleShare
      rw [if_pos (by decide)]
      norm_num [c1State]
    rw [hshare, (by decide : (maxGroupWinners c1Players).length = 1)]
    rw [show ((5:ℚ) / ((1:ℕ):ℚ)) = 5 by norm_num]
    exact round2_of_isCents ⟨500, by norm_num⟩
  show (List.map _ c1Players).map Player.balance = _
  rw [List.map_map]
  simp only [hsplitmin, hsplitmax]
  unfold c1Players
  simp only [List.map_cons, List.map_nil, Function.comp_apply]
  rw [if_pos (by decide), if_pos (by decide), if_neg (by decide), if_pos (by decide)]
  rw [show ((0:ℚ) + 5/2) = 5/2 by norm_num, show ((0:ℚ) + 5) = 5 by norm_num]
  rw [round2_of_isCents (⟨250, by norm_num⟩ : isCents ((5:ℚ)/2)),
    round2_of_isCents (⟨500, by norm_num⟩ : isCents (5:ℚ))]

/-- Witness for C1's general part at the concrete settlement demo. -/
theorem c1_settlement_split_witness :
    ∃ stR ps2 hist2,
      calculateWinners c1State c1Players [] 0 none = some (stR, ps2, hist2)
      ∧ ps2 = c1Players.map (fun p =>
          if p ∈ minGroupWinners c1Players then
            { p with balance := round2 (p.balance + splitMinAmount c1Players c1State.pot) }
          else if p ∈ maxGroupWinners c1Players then
            { p with balance := round2 (p.balance + splitMaxAmount c1Players c1State.pot) }
          else p)
      ∧ (minDeclarers c1Players ≠ [] ∧ maxDeclarers c1Players ≠ [] →
          settleShare c1Players c1State.pot = c1State.pot / 2)
      ∧ (minDeclarers c1Players = [] ∨ maxDeclarers c1Players = [] →
          settleShare c1Players c1State.pot = c1State.pot)
      ∧ (∀ p ∈ minDeclarers c1Players,
          (p ∈ minGroupWinners c1Players ↔
            p.finalScore = some (bestMinScore (minDeclarers c1Players))))
      ∧ (∀ p ∈ minDeclarers c1Players, ∀ s, p.finalScore = some s →
          bestMinScore (minDeclarers c1Players) ≤ s)
      ∧ (∀ p ∈ maxDeclarers c1Players,
          (p ∈ maxGroupWinners c1Players ↔
            p.finalScore = some (bestMaxScore (maxDeclarers c1Players))))
      ∧ (∀ p ∈ maxDeclarers c1Players, ∀ s, p.finalScore = some s →
          s ≤ bestMaxScore (maxDeclarers c1Players)) :=
  c1_settlement_split.1 c1State c1Players [] 0 (by decide) (by decide)

/-- C2: after every completed settlement — normal (at least one declarer) or
jackpot override (a valid special winner) — exactly one history record
carrying a non-empty winners description, the pot amount and the timestamp
is appended, the phase becomes `results` with the pot still intact on the
table, and the subsequent admin `handleNextHand` resets the pot to 0. -/
theorem c2_settlement_history (st : GameState) (ps : List Player)
    (hist : List HistoryRecord) (ts : ℕ) :
    ((eligibleForSettlement ps ≠ []) →
      ∃ stR ps2 entry,
        calculateWinners st ps hist ts none = some (stR, ps2, hist ++ [entry])
        ∧ entry.pot = st.pot ∧ entry.timestamp = ts ∧ entry.winners ≠ []
        ∧ stR.phase = .results ∧ stR.pot = st.pot
        ∧ (handleNextHand stR true).pot = 0)
    ∧ (∀ wid w, ps.find? (fun p => p.id = wid) = some w →
      ∃ stR ps2,
        calculateWinners st ps hist ts (some wid)
            = some (stR, ps2, hist ++ [⟨[⟨w.username, st.pot⟩], st.pot, ts⟩])
        ∧ stR.phase = .results
        ∧ (handleNextHand stR true).pot = 0) := by
  constructor
  · intro hne
    have he : (eligibleForSettlement ps).isEmpty = false := by
      simpa [List.isEmpty_iff] using hne
    have hwin : ((minGroupWinners ps).map
          (fun w => WinEntry.mk w.username (splitMinAmount ps st.pot))
        ++ (maxGroupWinners ps).map
          (fun w => WinEntry.mk w.username (splitMaxAmount ps st.pot))) ≠ [] := by
      obtain ⟨p, hp⟩ := List.exists_mem_of_ne_nil _ hne
      have hch : p.choice.isSome := by
        have := (List.mem_filter.mp hp).2
        simp only [Bool.and_eq_true] at this
        exact this.1.2
      obtain ⟨c, hc⟩ := Option.isSome_iff_exists.mp hch
      intro hnil
      rw [List.append_eq_nil] at hnil
      obtain ⟨hn1, hn2⟩ := hnil
      rw [List.map_eq_nil_iff] at hn1 hn2
      cases c with
      | min =>
        have hpd : p ∈ minDeclarers ps :=
          List.mem_filter.mpr ⟨hp, by simp [hc]⟩
        exact minGroupWinners_ne_nil (List.ne_nil_of_mem hpd) hn1
      | max =>
        have hpd : p ∈ maxDeclarers ps :=
          List.mem_filter.mpr ⟨hp, by simp [hc]⟩
        exact maxGroupWinners_ne_nil (List.ne_nil_of_mem hpd) hn2
    have hwinfalse : (((minGroupWinners ps).map
          (fun w => WinEntry.mk w.username (splitMinAmount ps st.pot))
        ++ (maxGroupWinners ps).map
          (fun w => WinEntry.mk w.username (splitMaxAmount ps st.pot))).isEmpty)
        = false := by
      simpa [List.isEmpty_iff] using hwin
    refine ⟨{ st with phase := Phase.results, isFirstHand := false },
      applyWinnerUpdates (splitMaxAmount ps st.pot) (maxGroupWinners ps)
        (applyWinnerUpdates (splitMinAmount ps st.pot) (minGroupWinners ps) ps),
      ⟨(minGroupWinners ps).map
          (fun w => WinEntry.mk w.username (splitMinAmount ps st.pot))
        ++ (maxGroupWinners ps).map
          (fun w => WinEntry.mk w.username (splitMaxAmount ps st.pot)),
        st.pot, ts⟩,
      ?_, rfl, rfl, hwin, rfl, rfl, rfl⟩
    unfold calculateWinners
    simp [he, hwinfalse]
  · intro wid w hfind
    refine ⟨{ st with phase := Phase.results, isFirstHand := false },
      ps.map (fun p =>
        if p.id = wid then { p with balance := round2 (p.balance + st.pot) } else p),
      ?_, rfl, rfl⟩
    unfold calculateWinners
    simp only [hfind]

/-- Witness for C2 at the settlement demo: a normal settlement and a
jackpot override for player A. -/
theorem c2_settlement_history_witness :
    (∃ stR ps2 entry,
        calculateWinners c1State c1Players [] 0 none = some (stR, ps2, [] ++ [entry])
        ∧ entry.pot = c1State.pot ∧ entry.timestamp = 0 ∧ entry.winners ≠ []
        ∧ stR.phase = .results ∧ stR.pot = c1State.pot
        ∧ (handleNextHand stR true).pot = 0)
    ∧ (∃ stR ps2,
        calculateWinners c1State c1Players [] 0 (some "A")
            = some (stR, ps2, [] ++ [⟨[⟨"Ann", c1State.pot⟩], c1State.pot, 0⟩])
        ∧ stR.phase = .results
        ∧ (handleNextHand stR true).pot = 0) :=
  ⟨(c2_settlement_history c1State c1Players [] 0).1 (by decide),
   (c2_settlement_history c1State c1Players [] 0).2 "A"
     ⟨"A", "Ann", 0, false, false, 0, some 5, some .min, 0, true, false, [], [], 0, []⟩
     (by decide)⟩

end LasVegas
